import Mathlib

/-!
Verification of the speech-driven spelling-bee recognition pipeline of
`src/src/hooks/useSpeechRecognition.ts`.

The TypeScript source is shallowly embedded below.  Strings are Lean
`String`s manipulated through their character lists; JavaScript's
`toLowerCase`/`toUpperCase` are modelled by the core ASCII
`Char.toLower`/`Char.toUpper` (the transcripts and targets of interest are
basic-latin), `trim` and `split(/\s+/)` by explicit character-list
recursions over the core whitespace predicate, and object-literal lookup
tables by association lists.  The floating-point test `matches / maxLen >=
0.7` is modelled by the exact rational comparison `7 * maxLen ≤ 10 *
matches`, which agrees with the double computation on all realistic string
lengths.
-/

namespace SpellingBee

/-- Lowercase basic-latin letter test, the model of the regexes `[a-z]` and
`[^a-z]` (code points 97 to 122). -/
def isLowerAlpha (c : Char) : Bool :=
  97 ≤ c.toNat && c.toNat ≤ 122

/-- Uppercase basic-latin letter test (code points 65 to 90), used to state
the invariants on decoded characters. -/
def isUpperAlpha (c : Char) : Bool :=
  65 ≤ c.toNat && c.toNat ≤ 90

/-- The twenty-six lowercase basic-latin letters. -/
def lowerChars : List Char :=
  ['a','b','c','d','e','f','g','h','i','j','k','l','m',
   'n','o','p','q','r','s','t','u','v','w','x','y','z']

/-- The twenty-six uppercase basic-latin letters. -/
def upperChars : List Char :=
  ['A','B','C','D','E','F','G','H','I','J','K','L','M',
   'N','O','P','Q','R','S','T','U','V','W','X','Y','Z']

/-- Model of `String.prototype.toLowerCase` on basic-latin text: lowercase
every character. -/
def toLowerStr (s : String) : String :=
  String.mk (s.data.map Char.toLower)

/-- Model of `String.prototype.toUpperCase` on basic-latin text: uppercase
every character. -/
def toUpperStr (s : String) : String :=
  String.mk (s.data.map Char.toUpper)

/-- Model of `String.prototype.trim`: drop whitespace from both ends. -/
def trimStr (s : String) : String :=
  String.mk (((s.data.dropWhile Char.isWhitespace).reverse.dropWhile
    Char.isWhitespace).reverse)

/-- Model of `.replace(/[^a-z]/g, '')`: keep only lowercase letters. -/
def stripNonAlpha (s : String) : String :=
  String.mk (s.data.filter isLowerAlpha)

/-- Helper for `tokenize`: split a character list at every whitespespace
character, keeping empty runs (they are filtered away by `tokenize`, just
as the source filters the result of `split`). `cur` is the current run,
reversed. -/
def splitWsAux : List Char → List Char → List (List Char)
  | cur, [] => [cur.reverse]
  | cur, c :: cs =>
    if Char.isWhitespace c then cur.reverse :: splitWsAux [] cs
    else splitWsAux (c :: cur) cs

/-- Model of `fullText.toLowerCase().split(/\s+/).filter(t => t)` from
`processTranscript`: lowercase, split on whitespace, drop empty tokens. -/
def tokenize (fullText : String) : List String :=
  ((splitWsAux [] (toLowerStr fullText).data).map String.mk).filter
    (fun t => t != "")

/-- The object literal `SPECIAL_CHAR_MAP`, mapping spoken words to special
characters, as an association list (`apoStr` below is the apostrophe). -/
def apoStr : String := String.mk [Char.ofNat 39]

/-- Association-list rendering of the source's `SPECIAL_CHAR_MAP` record:
space, apostrophe, quote, hyphen, dash, period, dot, comma, accent. -/
def SPECIAL_CHAR_MAP : List (String × String) :=
  [("space", " "), ("apostrophe", apoStr), ("quote", apoStr),
   ("hyphen", "-"), ("dash", "-"), ("period", "."), ("dot", "."),
   ("comma", ","), ("accent", apoStr)]

/-- The source's `LETTER_NAMES` array: letter names that `isLetterToken`
should recognize. -/
def LETTER_NAMES : List String :=
  ["double u", "double you", "pee", "bee", "see", "dee", "ee", "eff",
   "gee", "aitch", "eye", "jay", "kay", "ell", "em", "en", "oh",
   "queue", "cue", "ar", "ess", "tee", "you", "vee", "ex", "why",
   "zee", "zed"]

/-- The source's `isLetterToken`: a token is a letter token when, after
`trim().toLowerCase()`, it is a single character `a`-`z`, a key of
`SPECIAL_CHAR_MAP`, or a member of `LETTER_NAMES`. -/
def isLetterToken (token : String) : Bool :=
  let cleaned := toLowerStr (trimStr token)
  if cleaned.length == 1 && cleaned.data.any isLowerAlpha then true
  else if (List.lookup cleaned SPECIAL_CHAR_MAP).isSome then true
  else if LETTER_NAMES.contains cleaned then true
  else false

/-- Helper for the fuzzy similarity score: the number of positions, up to
the length of the shorter list, holding equal characters.  This is the
source's `for (let i = 0; i < minLen; i++) if (a[i] === b[i]) matches++`
loop. -/
def countMatches : List Char → List Char → Nat
  | a :: as, b :: bs => (if a == b then 1 else 0) + countMatches as bs
  | _, _ => 0

/-- Helper modelling `x.startsWith(y)` : `y`'s characters are an initial
segment of `x`'s.  `isPrefixList y x` is `x.startsWith(y)`. -/
def isPrefixList : List Char → List Char → Bool
  | [], _ => true
  | _ :: _, [] => false
  | a :: as, b :: bs => a == b && isPrefixList as bs

/-- The source's `wordsSoundSimilar(spoken, target)`: exact match after
lowercase and trim; else exact match after stripping non-letters; else,
when both stripped forms have length at least 3, a mutual-prefix test and
then a positional-overlap score of at least 70 percent of the longer
length (the float comparison `matches / maxLen >= 0.7` is modelled
exactly as `7 * maxLen <= 10 * matches`). -/
def wordsSoundSimilar (spoken target : String) : Bool :=
  let spokenClean := trimStr (toLowerStr spoken)
  let targetClean := trimStr (toLowerStr target)
  if spokenClean == targetClean then true
  else
    let spokenNorm := stripNonAlpha spokenClean
    let targetNorm := stripNonAlpha targetClean
    if spokenNorm == targetNorm then true
    else if 3 ≤ spokenNorm.length && 3 ≤ targetNorm.length then
      if isPrefixList targetNorm.data spokenNorm.data
          || isPrefixList spokenNorm.data targetNorm.data then true
      else
        let maxLen := max spokenNorm.length targetNorm.length
        let matchCount := countMatches spokenNorm.data targetNorm.data
        decide (7 * maxLen ≤ 10 * matchCount)
    else false

/-- The `phoneticMap` object literal from `extractSingleLetter`, as an
association list. -/
def phoneticMap : List (String × String) :=
  [("pee", "P"), ("bee", "B"), ("see", "C"), ("dee", "D"), ("ee", "E"),
   ("eff", "F"), ("ef", "F"), ("gee", "G"), ("aitch", "H"), ("eye", "I"),
   ("jay", "J"), ("kay", "K"), ("ell", "L"), ("el", "L"), ("em", "M"),
   ("en", "N"), ("oh", "O"), ("queue", "Q"), ("cue", "Q"), ("ar", "R"),
   ("ess", "S"), ("es", "S"), ("tee", "T"), ("you", "U"), ("vee", "V"),
   ("ex", "X"), ("why", "Y"), ("zee", "Z"), ("zed", "Z")]

/-- The source's `extractSingleLetter(token)`: after
`toLowerCase().trim()`, return the special character for a
`SPECIAL_CHAR_MAP` key, the uppercased character for a single `a`-`z`
character, the phonetic map entry for a letter name, and `none`
otherwise. -/
def extractSingleLetter (token : String) : Option String :=
  let cleaned := trimStr (toLowerStr token)
  match List.lookup cleaned SPECIAL_CHAR_MAP with
  | some ch => some ch
  | none =>
    if cleaned.length == 1 && cleaned.data.any isLowerAlpha then
      some (toUpperStr cleaned)
    else List.lookup cleaned phoneticMap

/-- The phases of a spelling attempt (the source's `SpellingPhase` union
type). -/
inductive SpellingPhase
  | waiting
  | word1
  | spelling
  | word2
  | complete
deriving DecidableEq, Repr

/-- The source's `SpellingBeeState` record. -/
structure SpellingBeeState where
  phase : SpellingPhase
  startWord : Option String
  characters : List String
  endWord : Option String
  skippedStartWord : Bool
deriving DecidableEq, Repr

/-- Model of `targetWordRef.current?.toLowerCase() || ''`: the lowercased
target word, or the empty string when no target word is set. -/
def normTarget (targetWord : Option String) : String :=
  match targetWord with
  | some w => toLowerStr w
  | none => ""

/-- Model of the guard `target && wordsSoundSimilar(token, target)`: the
target string is non-empty (truthy) and the token sounds similar to it. -/
def matchesTargetTok (target token : String) : Bool :=
  !(target == "") && wordsSoundSimilar token target

/-- First loop of `processTranscript`.  While the scan is still in phase
`word1`: a token matching the target becomes the start word and the next
index becomes the letter-scan start; otherwise a letter token sets
`skippedStart` and its own index becomes the letter-scan start; other
tokens are skipped.  The source records the letter-scan start as an index
`letterStartIndex` into the token array (`-1` when no transition occurs);
here the returned third component is the corresponding suffix of the
token list (the tokens from that index on), which is exactly what the
second loop consumes, or `none` for `-1`.  Result:
`(startWord, skippedStart, letter-scan suffix)`. -/
def preambleScan (target : String) : List String →
    Option String × Bool × Option (List String)
  | [] => (none, false, none)
  | t :: ts =>
    if matchesTargetTok target t then (some t, false, some ts)
    else if isLetterToken t then (none, true, some (t :: ts))
    else preambleScan target ts

/-- Second loop of `processTranscript`, over the tokens from the
letter-scan start.  A token matching the target while at least one letter
has been accumulated is the end word and stops the scan; otherwise the
token's decoded character, if any, is appended, and the token is dropped
as noise if it decodes to nothing.  Result: `(endWord, characters)`. -/
def letterScan (target : String) : List String → List String →
    Option String × List String
  | [], acc => (none, acc)
  | t :: ts, acc =>
    if matchesTargetTok target t && decide (0 < acc.length) then
      (some t, acc)
    else
      match extractSingleLetter t with
      | some ch => letterScan target ts (acc ++ [ch])
      | none => letterScan target ts acc

/-- The phase expression of the final `setSpellingState` call:
`endWord ? 'word2' : (chars.length > 0 ? 'spelling' : (startWord ?
'spelling' : 'word1'))`. -/
def derivePhase (endWord : Option String) (characters : List String)
    (startWord : Option String) : SpellingPhase :=
  if endWord.isSome then .word2
  else if 0 < characters.length then .spelling
  else if startWord.isSome then .spelling
  else .word1

/-- The source's `processTranscript(fullText)` with the target word passed
explicitly (the source reads it from `targetWordRef.current`): tokenize,
run the preamble scan, run the letter scan from the recorded start, and
assemble the spelling state with the phase derived by `derivePhase`. -/
def processTranscript (fullText : String) (targetWord : Option String) :
    SpellingBeeState :=
  let tokens := tokenize fullText
  let target := normTarget targetWord
  let pre := preambleScan target tokens
  let scanned :=
    match pre.2.2 with
    | some rest => letterScan target rest []
    | none => (none, [])
  { phase := derivePhase scanned.1 scanned.2 pre.1
    startWord := pre.1
    characters := scanned.2
    endWord := scanned.1
    skippedStartWord := pre.2.1 }

/-- View of the session state touched by the recognizer's `onerror`
handler: the user-facing error string and the listening flag. -/
structure SessionViewState where
  error : Option String
  isListening : Bool
deriving DecidableEq, Repr

/-- The source's `recognition.onerror` handler: when the error kind is
neither `aborted` nor `no-speech` it stores a user-facing message
(`setError`), and in every case it clears the listening flag
(`setIsListening(false)`). -/
def recognitionOnError (eventError : String) (st : SessionViewState) :
    SessionViewState :=
  let st1 :=
    if eventError != "aborted" && eventError != "no-speech" then
      { st with error := some ("Error: " ++ eventError) }
    else st
  { st1 with isListening := false }

/-- Guard of the auto-stop scheduling in `processTranscript`:
`if (endWord && recognitionRef.current && phase === 'word2')`.  The local
`phase` variable equals `word2` exactly when `endWord` was set, and the
derived state phase agrees, so the guard is: an end word was found, the
recognizer ref is set, and the derived phase is `word2`. -/
def schedulesAutoStop (fullText : String) (targetWord : Option String)
    (refCurrentSet : Bool) : Bool :=
  (processTranscript fullText targetWord).endWord.isSome && refCurrentSet
    && decide ((processTranscript fullText targetWord).phase = .word2)

/-- Body of the scheduled auto-stop timer:
`if (recognitionRef.current) { recognitionRef.current.stop(); }`.  The
callback issues `stop()` precisely when `recognitionRef.current` is
non-null; it consults no session identity or liveness information. -/
def timerBodyStops (refCurrent : Option Nat) : Bool :=
  refCurrent.isSome

/-- Events of the session-controller lifecycle relevant to the scheduled
auto-stop: component mount (which stores the recognizer object in
`recognitionRef`), the unmount/teardown cleanup (which calls `abort()`),
`startListening` (which starts a new capture session on the same
recognizer object), and the firing of a previously scheduled auto-stop
timer. -/
inductive SessionEvent
  | mount
  | unmountCleanup
  | startListen
  | timerFire
deriving DecidableEq, Repr

/-- Discrete model of the session controller around the scheduled
auto-stop.  `refCurrent` is `recognitionRef.current` (holding the id of
the recognizer object); `liveSession` is the generation of the capture
session currently running on that recognizer, `nextGen` numbers the
sessions, and `stops` logs, for each fired timer that issued `stop()`,
the generation of the session the stop acted on. -/
structure SessionModel where
  refCurrent : Option Nat
  liveSession : Option Nat
  nextGen : Nat
  stops : List Nat
deriving DecidableEq, Repr

/-- Initial session-controller state: nothing mounted, no session. -/
def initModel : SessionModel :=
  { refCurrent := none, liveSession := none, nextGen := 1, stops := [] }

/-- One step of the session-controller model.  Mounting stores the
recognizer in the ref.  The unmount cleanup calls `abort()`, ending the
live session, but — exactly as in the source — it does not clear
`recognitionRef.current`.  `startListening` begins a fresh session
(generation counter) on the same recognizer.  A firing timer runs
`timerBodyStops` on the current ref and, when it issues `stop()`, the
stop acts on whatever session is live on the recognizer at that moment. -/
def sessionStep (st : SessionModel) (e : SessionEvent) : SessionModel :=
  match e with
  | .mount => { st with refCurrent := some 0 }
  | .unmountCleanup => { st with liveSession := none }
  | .startListen =>
      { st with liveSession := some st.nextGen, nextGen := st.nextGen + 1 }
  | .timerFire =>
      if timerBodyStops st.refCurrent then
        { st with stops := st.stops ++
            (match st.liveSession with | some g => [g] | none => []) }
      else st

section Helpers

/-- A successful association-list lookup returns one of the stored
values. -/
theorem mem_map_snd_of_lookup {m : List (String × String)} {k v : String}
    (h : List.lookup k m = some v) : v ∈ m.map Prod.snd := by
  induction m with
  | nil => simp at h
  | cons p ps ih =>
    obtain ⟨a, b⟩ := p
    rw [List.lookup_cons] at h
    revert h
    cases k == a with
    | true => intro h; simp_all
    | false => intro h; simpa using Or.inr (ih h)

/-- Every character passing `isLowerAlpha` is one of the twenty-six
lowercase letters. -/
theorem mem_lowerChars_of_isLowerAlpha {c : Char}
    (h : isLowerAlpha c = true) : c ∈ lowerChars := by
  have h' : 97 ≤ c.toNat ∧ c.toNat ≤ 122 := by
    simpa [isLowerAlpha, Bool.and_eq_true, decide_eq_true_iff] using h
  obtain ⟨h1, h2⟩ := h'
  have hc : c = Char.ofNat c.toNat := (Char.ofNat_toNat c).symm
  rw [hc]
  generalize c.toNat = n at h1 h2
  interval_cases n <;> decide

/-- Every character passing `isUpperAlpha` is one of the twenty-six
uppercase letters. -/
theorem mem_upperChars_of_isUpperAlpha {u : Char}
    (h : isUpperAlpha u = true) : u ∈ upperChars := by
  have h' : 65 ≤ u.toNat ∧ u.toNat ≤ 90 := by
    simpa [isUpperAlpha, Bool.and_eq_true, decide_eq_true_iff] using h
  obtain ⟨h1, h2⟩ := h'
  have hc : u = Char.ofNat u.toNat := (Char.ofNat_toNat u).symm
  rw [hc]
  generalize u.toNat = n at h1 h2
  interval_cases n <;> decide

/-- Uppercasing a lowercase letter yields an uppercase letter. -/
theorem isUpperAlpha_toUpper {c : Char} (h : isLowerAlpha c = true) :
    isUpperAlpha c.toUpper = true := by
  have := mem_lowerChars_of_isLowerAlpha h
  fin_cases this <;> decide

/-- Decoding a one-letter token: a single lowercase character decodes to
its uppercase form. -/
theorem extractSingleLetter_single {c : Char} (h : isLowerAlpha c = true) :
    extractSingleLetter (String.mk [c]) = some (String.mk [c.toUpper]) := by
  have := mem_lowerChars_of_isLowerAlpha h
  fin_cases this <;> decide

/-- Shape of every decoded character: a single uppercase letter or one of
the five special characters. -/
theorem extractSingleLetter_shape {t s : String}
    (h : extractSingleLetter t = some s) :
    (s.length = 1 ∧ ∀ c ∈ s.data, isUpperAlpha c = true) ∨
      s ∈ [" ", apoStr, "-", ".", ","] := by
  rw [extractSingleLetter] at h
  cases hl : List.lookup (trimStr (toLowerStr t)) SPECIAL_CHAR_MAP with
  | some ch =>
    rw [hl] at h
    obtain rfl : ch = s := by simpa using h
    have hm := mem_map_snd_of_lookup hl
    fin_cases hm <;> decide
  | none =>
    rw [hl] at h
    simp only at h
    by_cases hc : ((trimStr (toLowerStr t)).length == 1
        && (trimStr (toLowerStr t)).data.any isLowerAlpha) = true
    · rw [if_pos hc] at h
      obtain ⟨hlen, hany⟩ := Bool.and_eq_true _ _ |>.mp hc
      obtain ⟨c, hdata⟩ : ∃ c, (trimStr (toLowerStr t)).data = [c] := by
        have h1 : (trimStr (toLowerStr t)).length = 1 := by
          simpa using hlen
        exact List.length_eq_one.mp h1
      have hcl : isLowerAlpha c = true := by
        rw [hdata] at hany; simpa using hany
      left
      obtain rfl : toUpperStr (trimStr (toLowerStr t)) = s := by simpa using h
      constructor
      · simp [toUpperStr, String.length, hdata]
      · intro c' hc'
        simp only [toUpperStr, hdata, List.map_cons, List.map_nil] at hc'
        simp only [List.mem_singleton] at hc'
        subst hc'
        exact isUpperAlpha_toUpper hcl
    · rw [if_neg hc] at h
      have hm := mem_map_snd_of_lookup h
      fin_cases hm <;> decide



/-- Every element of the letter scan's output either was already in the
accumulator or is the decoded character of some token. -/
theorem mem_letterScan {target : String} : ∀ (ts acc : List String)
    (s : String), s ∈ (letterScan target ts acc).2 →
    s ∈ acc ∨ ∃ tok, extractSingleLetter tok = some s := by
  intro ts
  induction ts with
  | nil => intro acc s h; rw [letterScan] at h; exact Or.inl h
  | cons t ts ih =>
    intro acc s h
    rw [letterScan] at h
    by_cases hg : (matchesTargetTok target t && decide (0 < acc.length)) = true
    · rw [if_pos hg] at h; exact Or.inl h
    · rw [if_neg hg] at h
      cases hx : extractSingleLetter t with
      | some ch =>
        rw [hx] at h
        rcases ih _ _ h with h' | h'
        · rcases List.mem_append.mp h' with h'' | h''
          · exact Or.inl h''
          · rw [List.mem_singleton] at h''
            subst h''
            exact Or.inr ⟨t, hx⟩
        · exact Or.inr h'
      | none => rw [hx] at h; exact ih _ _ h

/-- If the letter scan finds an end word then its accumulated character
list, returned unchanged from the point of detection, is non-empty. -/
theorem letterScan_endWord_nonempty {target : String} :
    ∀ (ts acc : List String), (letterScan target ts acc).1.isSome = true →
      1 ≤ (letterScan target ts acc).2.length := by
  intro ts
  induction ts with
  | nil => intro acc h; rw [letterScan] at h; simp at h
  | cons t ts ih =>
    intro acc h
    rw [letterScan] at h ⊢
    by_cases hg : (matchesTargetTok target t && decide (0 < acc.length)) = true
    · rw [if_pos hg] at h ⊢
      have h2 := (Bool.and_eq_true _ _).mp hg |>.2
      simpa using of_decide_eq_true h2
    · rw [if_neg hg] at h ⊢
      cases hx : extractSingleLetter t with
      | some ch => rw [hx] at h; exact ih (acc ++ [ch]) h
      | none => rw [hx] at h; exact ih acc h

/-- The preamble scan produces one of three shapes: no transition, a
start-word transition, or a skipped-start transition. -/
theorem preambleScan_shape (target : String) : ∀ ts : List String,
    preambleScan target ts = (none, false, none) ∨
      (∃ w rest, preambleScan target ts = (some w, false, some rest)) ∨
      (∃ rest, preambleScan target ts = (none, true, some rest)) := by
  intro ts
  induction ts with
  | nil => exact Or.inl rfl
  | cons t ts ih =>
    rw [preambleScan]
    by_cases h1 : matchesTargetTok target t = true
    · rw [if_pos h1]; exact Or.inr (Or.inl ⟨t, ts, rfl⟩)
    · rw [if_neg h1]
      by_cases h2 : isLetterToken t = true
      · rw [if_pos h2]; exact Or.inr (Or.inr ⟨t :: ts, rfl⟩)
      · rw [if_neg h2]; exact ih

/-- The preamble scan reports a skipped start word exactly when some token
is a letter token and no token up to and including it matches the target
word. -/
theorem preambleScan_skipped_iff (target : String) : ∀ ts : List String,
    (preambleScan target ts).2.1 = true ↔
      ∃ pre t post, ts = pre ++ t :: post ∧ isLetterToken t = true ∧
        ∀ u ∈ pre ++ [t], matchesTargetTok target u = false := by
  intro ts
  induction ts with
  | nil =>
    rw [preambleScan]
    constructor
    · intro h
      exact absurd h (by decide)
    · rintro ⟨pre, t, post, heq, -, -⟩
      have hne : ([] : List String) ≠ pre ++ t :: post := by
        cases pre <;> simp
      exact absurd heq hne
  | cons a ts ih =>
    rw [preambleScan]
    by_cases hm : matchesTargetTok target a = true
    · rw [if_pos hm]
      constructor
      · intro h
        simp at h
      · rintro ⟨pre, t, post, heq, hlet, hall⟩
        have ha : matchesTargetTok target a = false := by
          cases pre with
          | nil =>
            obtain ⟨rfl, rfl⟩ : a = t ∧ ts = post := by simpa using heq
            exact hall a (by simp)
          | cons p pre' =>
            obtain ⟨rfl, -⟩ : a = p ∧ ts = pre' ++ t :: post := by
              simpa using heq
            exact hall a (by simp)
        rw [hm] at ha
        exact absurd ha (by decide)
    · rw [if_neg hm]
      have hmf : matchesTargetTok target a = false := by
        simpa using hm
      by_cases hl : isLetterToken a = true
      · rw [if_pos hl]
        constructor
        · intro _
          refine ⟨[], a, ts, rfl, hl, ?_⟩
          intro u hu
          rw [List.nil_append, List.mem_singleton] at hu
          subst hu
          exact hmf
        · intro _
          rfl
      · rw [if_neg hl]
        rw [ih]
        constructor
        · rintro ⟨pre, t, post, heq, hlet, hall⟩
          refine ⟨a :: pre, t, post, by rw [heq]; rfl, hlet, ?_⟩
          intro u hu
          have hu' : u = a ∨ u ∈ pre ++ [t] := List.mem_cons.mp hu
          rcases hu' with rfl | hu'
          · exact hmf
          · exact hall u hu'
        · rintro ⟨pre, t, post, heq, hlet, hall⟩
          cases pre with
          | nil =>
            obtain ⟨rfl, rfl⟩ : a = t ∧ ts = post := by simpa using heq
            exact absurd hlet hl
          | cons p pre' =>
            obtain ⟨rfl, hts⟩ : a = p ∧ ts = pre' ++ t :: post := by
              simpa using heq
            refine ⟨pre', t, post, hts, hlet, ?_⟩
            intro u hu
            exact hall u (List.mem_cons.mpr (Or.inr hu))

end Helpers

end SpellingBee

namespace SpellingBee

/-- C1: for target word "apple" and cumulative transcript
"apple a p p l e apple", the transcript parser returns exactly
startWord "apple", characters A, P, P, L, E, endWord "apple",
phase word2, and skippedStartWord false. -/
theorem transcript_apple_worked_example :
    processTranscript "apple a p p l e apple" (some "apple") =
      { phase := .word2, startWord := some "apple",
        characters := ["A", "P", "P", "L", "E"], endWord := some "apple",
        skippedStartWord := false } := by
  decide

/-- C3 (counterexample): contrary to the claim, the similarity matcher
does not return true for spoken token "aple" against target word
"apple". -/
theorem similarity_aple_apple_not_true :
    ¬ wordsSoundSimilar "aple" "apple" = true := by
  decide

/-- C3 (amended): for spoken token "aple" and target word "apple" the
similarity matcher returns false: the strings differ, "apple" does not
start with "aple" (nor conversely), and only 2 of the first 4 positions
agree, so the positional score is 2/5 = 40 percent, below the 70 percent
threshold. -/
theorem similarity_aple_apple_false :
    wordsSoundSimilar "aple" "apple" = false := by
  decide

/-- C5: whenever the parser reports an end word, the character sequence is
non-empty; and already at the point of detection inside the letter scan
(whose accumulator is returned unchanged when the end word is found) at
least one letter had been accumulated. -/
theorem endWord_requires_characters :
    (∀ text target, (processTranscript text target).endWord.isSome = true →
      1 ≤ (processTranscript text target).characters.length) ∧
    (∀ target rest acc, (letterScan target rest acc).1.isSome = true →
      1 ≤ (letterScan target rest acc).2.length) := by
  constructor
  · intro text target h
    simp only [processTranscript] at h ⊢
    cases hr : (preambleScan (normTarget target) (tokenize text)).2.2 with
    | none => rw [hr] at h; simp at h
    | some rest => rw [hr] at h; exact letterScan_endWord_nonempty rest [] h
  · intro target rest acc h
    exact letterScan_endWord_nonempty rest acc h

/-- C5 (witness): a concrete run with an end word has at least one
character. -/
theorem endWord_requires_characters_witness :
    (processTranscript "apple a apple" (some "apple")).endWord.isSome = true
      ∧ 1 ≤ (processTranscript "apple a apple" (some "apple")).characters.length :=
  ⟨by decide, endWord_requires_characters.1 "apple a apple" (some "apple")
    (by decide)⟩

end SpellingBee

namespace SpellingBee

/-- C4 (counterexample): contrary to the claim, the tokens "double u" and
"double you" do not decode to the letter W: the token classifier's
`extractSingleLetter` returns none for both (its phonetic map has no
entry for them, even though `isLetterToken` accepts them). -/
theorem double_u_does_not_decode :
    extractSingleLetter "double u" = none ∧
      extractSingleLetter "double you" = none := by
  decide

/-- C4 (amended): letter-name decoding holds as claimed for
"bee", "aitch", "zee"/"zed" and "queue"/"cue", and every single `a`-`z`
character token decodes to its uppercase form; but the phonetic names
cover only 24 letters: no phonetic name decodes to A or W, every other
uppercase letter has at least one name, and "double u"/"double you" are
accepted by `isLetterToken` yet decode to no character at all. -/
theorem letter_decoding_coverage :
    (extractSingleLetter "bee" = some "B"
      ∧ extractSingleLetter "aitch" = some "H"
      ∧ extractSingleLetter "zee" = some "Z"
      ∧ extractSingleLetter "zed" = some "Z"
      ∧ extractSingleLetter "queue" = some "Q"
      ∧ extractSingleLetter "cue" = some "Q")
    ∧ (extractSingleLetter "double u" = none
      ∧ extractSingleLetter "double you" = none
      ∧ isLetterToken "double u" = true
      ∧ isLetterToken "double you" = true)
    ∧ (∀ c : Char, isLowerAlpha c = true →
        extractSingleLetter (String.mk [c]) = some (String.mk [c.toUpper]))
    ∧ (∀ k v, List.lookup k phoneticMap = some v → v ≠ "A" ∧ v ≠ "W")
    ∧ (∀ u : Char, isUpperAlpha u = true → u ≠ 'A' → u ≠ 'W' →
        ∃ name, List.lookup name phoneticMap = some (String.mk [u])) := by
  refine ⟨by decide, by decide, ?_, ?_, ?_⟩
  · intro c hc
    exact extractSingleLetter_single hc
  · intro k v h
    have hm := mem_map_snd_of_lookup h
    fin_cases hm <;> exact ⟨by decide, by decide⟩
  · intro u hu hA hW
    have hm := mem_upperChars_of_isUpperAlpha hu
    fin_cases hm
    · exact absurd rfl hA
    · exact ⟨"bee", by decide⟩
    · exact ⟨"see", by decide⟩
    · exact ⟨"dee", by decide⟩
    · exact ⟨"ee", by decide⟩
    · exact ⟨"eff", by decide⟩
    · exact ⟨"gee", by decide⟩
    · exact ⟨"aitch", by decide⟩
    · exact ⟨"eye", by decide⟩
    · exact ⟨"jay", by decide⟩
    · exact ⟨"kay", by decide⟩
    · exact ⟨"ell", by decide⟩
    · exact ⟨"em", by decide⟩
    · exact ⟨"en", by decide⟩
    · exact ⟨"oh", by decide⟩
    · exact ⟨"pee", by decide⟩
    · exact ⟨"queue", by decide⟩
    · exact ⟨"ar", by decide⟩
    · exact ⟨"ess", by decide⟩
    · exact ⟨"tee", by decide⟩
    · exact ⟨"you", by decide⟩
    · exact ⟨"vee", by decide⟩
    · exact absurd rfl hW
    · exact ⟨"ex", by decide⟩
    · exact ⟨"why", by decide⟩
    · exact ⟨"zee", by decide⟩

/-- C4 (witness): the single-character clause applied at the letter q. -/
theorem letter_decoding_coverage_witness :
    isLowerAlpha 'q' = true ∧
      extractSingleLetter (String.mk ['q'])
        = some (String.mk ['q'.toUpper]) :=
  ⟨by decide, letter_decoding_coverage.2.2.1 'q' (by decide)⟩

end SpellingBee

namespace SpellingBee

/-- C6: the parse output's phase is derived exactly as: word2 if an end
word was found; else spelling if at least one character was accumulated
or a start word was found; else word1. -/
theorem phase_derivation : ∀ text target,
    (processTranscript text target).phase
        = derivePhase (processTranscript text target).endWord
            (processTranscript text target).characters
            (processTranscript text target).startWord
      ∧ ((processTranscript text target).endWord.isSome = true →
          (processTranscript text target).phase = .word2)
      ∧ ((processTranscript text target).endWord = none →
          (0 < (processTranscript text target).characters.length ∨
            (processTranscript text target).startWord.isSome = true) →
          (processTranscript text target).phase = .spelling)
      ∧ ((processTranscript text target).endWord = none →
          (processTranscript text target).characters = [] →
          (processTranscript text target).startWord = none →
          (processTranscript text target).phase = .word1) := by
  intro text target
  have heq : (processTranscript text target).phase
      = derivePhase (processTranscript text target).endWord
          (processTranscript text target).characters
          (processTranscript text target).startWord := rfl
  refine ⟨heq, ?_, ?_, ?_⟩
  · intro h
    rw [heq]
    simp [derivePhase, h]
  · intro h1 h2
    rw [heq, h1]
    simp only [derivePhase, Option.isSome_none, Bool.false_eq_true,
      if_false]
    rcases h2 with h2 | h2
    · rw [if_pos h2]
    · split_ifs with hcs <;> rfl
  · intro h1 h2 h3
    rw [heq, h1, h2, h3]
    decide

/-- C6 (witness): a concrete parse with one character and no end word is
in the spelling phase. -/
theorem phase_derivation_witness :
    (processTranscript "a" none).phase = SpellingPhase.spelling :=
  (phase_derivation "a" none).2.2.1 (by decide) (Or.inl (by decide))

/-- C7: a matched start word and a skipped start word are mutually
exclusive; when the attempt completed (an end word was found) exactly one
of the two holds; and the skipped-start flag is true exactly when some
token is a letter token with no target match at or before it. -/
theorem startWord_skip_dichotomy : ∀ text target,
    ((processTranscript text target).startWord.isSome = true →
      (processTranscript text target).skippedStartWord = false)
    ∧ ((processTranscript text target).endWord.isSome = true →
        ((processTranscript text target).startWord.isSome = true ∧
            (processTranscript text target).skippedStartWord = false)
          ∨ ((processTranscript text target).startWord = none ∧
            (processTranscript text target).skippedStartWord = true))
    ∧ ((processTranscript text target).skippedStartWord = true ↔
        ∃ pre t post, tokenize text = pre ++ t :: post ∧
          isLetterToken t = true ∧
          ∀ u ∈ pre ++ [t],
            matchesTargetTok (normTarget target) u = false) := by
  intro text target
  have hshape := preambleScan_shape (normTarget target) (tokenize text)
  refine ⟨?_, ?_,
    preambleScan_skipped_iff (normTarget target) (tokenize text)⟩
  · intro hs
    rcases hshape with h | ⟨w, rest, h⟩ | ⟨rest, h⟩
    · have hn : (processTranscript text target).startWord = none := by
        simp [processTranscript, h]
      rw [hn] at hs
      simp at hs
    · simp [processTranscript, h]
    · have hn : (processTranscript text target).startWord = none := by
        simp [processTranscript, h]
      rw [hn] at hs
      simp at hs
  · intro he
    rcases hshape with h | ⟨w, rest, h⟩ | ⟨rest, h⟩
    · have hn : (processTranscript text target).endWord = none := by
        simp [processTranscript, h]
      rw [hn] at he
      simp at he
    · left
      constructor
      · simp [processTranscript, h]
      · simp [processTranscript, h]
    · right
      constructor
      · simp [processTranscript, h]
      · simp [processTranscript, h]

/-- C7 (witness): in the worked transcript the start word was matched and
the skipped-start flag is accordingly false. -/
theorem startWord_skip_dichotomy_witness :
    (processTranscript "apple a apple" (some "apple")).skippedStartWord
      = false :=
  (startWord_skip_dichotomy "apple a apple" (some "apple")).1 (by decide)

end SpellingBee

namespace SpellingBee

/-- C2: the similarity matcher returns true exactly when one of the four
rules applies: equality after lowercase and trim; equality after
additionally stripping non-letters; both stripped forms of length at
least 3 and one a prefix of the other; or both of length at least 3 with
a positional-agreement count of at least 70 percent of the longer length.
In particular a token whose stripped form is shorter than 3 characters can
only match through the first two rules: "ca" against "cat" does not
match. -/
theorem wordsSoundSimilar_characterization :
    (∀ spoken target,
      wordsSoundSimilar spoken target = true ↔
        (trimStr (toLowerStr spoken) = trimStr (toLowerStr target)
        ∨ stripNonAlpha (trimStr (toLowerStr spoken))
            = stripNonAlpha (trimStr (toLowerStr target))
        ∨ (3 ≤ (stripNonAlpha (trimStr (toLowerStr spoken))).length
            ∧ 3 ≤ (stripNonAlpha (trimStr (toLowerStr target))).length
            ∧ (isPrefixList (stripNonAlpha (trimStr (toLowerStr target))).data
                  (stripNonAlpha (trimStr (toLowerStr spoken))).data = true
              ∨ isPrefixList
                  (stripNonAlpha (trimStr (toLowerStr spoken))).data
                  (stripNonAlpha (trimStr (toLowerStr target))).data = true))
        ∨ (3 ≤ (stripNonAlpha (trimStr (toLowerStr spoken))).length
            ∧ 3 ≤ (stripNonAlpha (trimStr (toLowerStr target))).length
            ∧ 7 * max (stripNonAlpha (trimStr (toLowerStr spoken))).length
                  (stripNonAlpha (trimStr (toLowerStr target))).length
                ≤ 10 * countMatches
                    (stripNonAlpha (trimStr (toLowerStr spoken))).data
                    (stripNonAlpha (trimStr (toLowerStr target))).data)))
    ∧ wordsSoundSimilar "ca" "cat" = false := by
  refine ⟨?_, by decide⟩
  intro spoken target
  rw [wordsSoundSimilar]
  by_cases h1 : (trimStr (toLowerStr spoken)
      == trimStr (toLowerStr target)) = true
  · rw [if_pos h1]
    simp only [true_iff]
    exact Or.inl (by simpa using h1)
  · rw [if_neg h1]
    by_cases h2 : (stripNonAlpha (trimStr (toLowerStr spoken))
        == stripNonAlpha (trimStr (toLowerStr target))) = true
    · rw [if_pos h2]
      simp only [true_iff]
      exact Or.inr (Or.inl (by simpa using h2))
    · rw [if_neg h2]
      by_cases h3 : (decide
            (3 ≤ (stripNonAlpha (trimStr (toLowerStr spoken))).length)
          && decide
            (3 ≤ (stripNonAlpha (trimStr (toLowerStr target))).length))
          = true
      · rw [if_pos h3]
        obtain ⟨hl1, hl2⟩ := Bool.and_eq_true _ _ |>.mp h3
        by_cases h4 : (isPrefixList
              (stripNonAlpha (trimStr (toLowerStr target))).data
              (stripNonAlpha (trimStr (toLowerStr spoken))).data
            || isPrefixList
              (stripNonAlpha (trimStr (toLowerStr spoken))).data
              (stripNonAlpha (trimStr (toLowerStr target))).data) = true
        · rw [if_pos h4]
          simp only [true_iff]
          exact Or.inr (Or.inr (Or.inl ⟨of_decide_eq_true hl1,
            of_decide_eq_true hl2, by simpa using h4⟩))
        · rw [if_neg h4]
          constructor
          · intro hd
            exact Or.inr (Or.inr (Or.inr ⟨of_decide_eq_true hl1,
              of_decide_eq_true hl2, of_decide_eq_true hd⟩))
          · intro hr
            rcases hr with hr | hr | hr | hr
            · exact absurd (by simpa using hr) h1
            · exact absurd (by simpa using hr) h2
            · exact absurd (by simpa using hr.2.2) h4
            · exact decide_eq_true hr.2.2
      · rw [if_neg h3]
        constructor
        · intro hf
          exact absurd hf (by simp)
        · intro hr
          rcases hr with hr | hr | hr | hr
          · exact absurd (by simpa using hr) h1
          · exact absurd (by simpa using hr) h2
          · exact absurd (by simp [decide_eq_true hr.1,
              decide_eq_true hr.2.1]) h3
          · exact absurd (by simp [decide_eq_true hr.1,
              decide_eq_true hr.2.1]) h3

/-- C8: on every recognizer error event the listening flag becomes false,
and a user-facing error string is stored exactly when the error kind is
neither "aborted" nor "no-speech"; for the two benign kinds the stored
error is left unchanged. -/
theorem onError_behavior : ∀ (kind : String) (st : SessionViewState),
    (recognitionOnError kind st).isListening = false
    ∧ (¬(kind = "aborted" ∨ kind = "no-speech") →
        (recognitionOnError kind st).error = some ("Error: " ++ kind))
    ∧ ((kind = "aborted" ∨ kind = "no-speech") →
        (recognitionOnError kind st).error = st.error) := by
  intro kind st
  refine ⟨rfl, ?_, ?_⟩
  · intro h
    have hb : (kind != "aborted" && kind != "no-speech") = true := by
      push_neg at h
      simp [bne_iff_ne, h.1, h.2]
    simp [recognitionOnError, hb]
  · intro h
    have hb : (kind != "aborted" && kind != "no-speech") = false := by
      rcases h with h | h <;> simp [h]
    simp [recognitionOnError, hb]

/-- C8 (witness): a network error is surfaced and stops listening. -/
theorem onError_behavior_witness :
    (recognitionOnError "network" ⟨none, true⟩).isListening = false
    ∧ (recognitionOnError "network" ⟨none, true⟩).error
        = some ("Error: " ++ "network") :=
  ⟨(onError_behavior "network" ⟨none, true⟩).1,
    (onError_behavior "network" ⟨none, true⟩).2.1 (by decide)⟩

/-- C9 (code bug): the scheduled auto-stop does not check session
identity or liveness.  In the modelled trace, session 1 detects the end
word (so `schedulesAutoStop` fires and a stop is scheduled), the
component is torn down (`abort()` runs but `recognitionRef.current` is
not cleared), a new session 2 starts on the same recognizer, and the
stale timer then fires: `timerBodyStops` sees a non-null ref and issues
`stop()`, which acts on session 2 — the new session, not the one that
scheduled the stop. -/
theorem staleAutoStop_acts_on_new_session :
    schedulesAutoStop "apple a apple" (some "apple") true = true
    ∧ (List.foldl sessionStep initModel
        [SessionEvent.mount, SessionEvent.startListen,
         SessionEvent.unmountCleanup, SessionEvent.startListen,
         SessionEvent.timerFire]).stops = [2]
    ∧ (List.foldl sessionStep initModel
        [SessionEvent.mount, SessionEvent.startListen,
         SessionEvent.unmountCleanup, SessionEvent.startListen,
         SessionEvent.timerFire]).liveSession = some 2 := by
  decide

/-- C10: every element of the parse output's character sequence is a
single uppercase letter or one of the five special characters space,
apostrophe, hyphen, period, comma. -/
theorem characters_wellformed : ∀ text target s,
    s ∈ (processTranscript text target).characters →
    (s.length = 1 ∧ ∀ c ∈ s.data, isUpperAlpha c = true) ∨
      s ∈ [" ", apoStr, "-", ".", ","] := by
  intro text target s hs
  simp only [processTranscript] at hs
  cases hr : (preambleScan (normTarget target) (tokenize text)).2.2 with
  | none =>
    rw [hr] at hs
    simp at hs
  | some rest =>
    rw [hr] at hs
    rcases mem_letterScan rest [] s hs with h | ⟨tok, htok⟩
    · simp at h
    · exact extractSingleLetter_shape htok

/-- C10 (witness): the decoded character of the concrete transcript "a"
is a single uppercase letter. -/
theorem characters_wellformed_witness :
    ("A".length = 1 ∧ ∀ c ∈ "A".data, isUpperAlpha c = true) ∨
      "A" ∈ [" ", apoStr, "-", ".", ","] :=
  characters_wellformed "a" none "A" (by decide)

end SpellingBee
